import Mathlib

/-!
Verification of the C6-Tools sequence-alignment core
(`src/C6-Align.gs` and `src/playground.gs`).

The pairwise aligner is `_buildMatrix` (a Needleman-Wunsch style dynamic
programming fill whose interior recurrence is floored at 0, Smith-Waterman
style) followed by `_traceback` (which starts from the cell holding the
global maximum of the whole matrix and walks back with a
diagonal/up/left preference order).  The multiple-sequence-alignment path
in `playground.gs` computes an all-pairs distance matrix, an
average-linkage guide tree, and a progressive merge.

Scores are modelled as `Int` (every concrete score in the repository is an
integer); distances, which JavaScript divides, are modelled as `Rat`.
JavaScript strings are modelled as `List Char` at the algorithmic level and
`String` at the interfaces.  Runtime failures of the JavaScript code
(`TypeError` from array-destructuring a non-iterable object, property
access on `undefined`) are modelled with an `Except JsError` monad.
-/

namespace C6

/-- JavaScript runtime failures relevant to this code base, plus the
`InvalidInput` rejection described by the specification. -/
inductive JsError where
  | invalidInput : JsError
  | typeError : JsError
deriving DecidableEq, Repr

/-- The inline substitution score of `_buildMatrix` / `_traceback`
(`C6-Align.gs` lines 163 and 214):
`seq1[i-1] === seq2[j-1] ? matchScore : mismatchScore`. -/
def subScore (mt mm : Int) (a b : Char) : Int :=
  if a = b then mt else mm

/-- One row of the `_buildMatrix` fill (`C6-Align.gs` lines 161-168) as a
function of the previous row.  `c1` is `seq1[i-1]` for the row being
built, `iv` is the already-initialized first-column entry `i * gapScore`
(lines 153-155), and the interior cell is
`Math.max(match, gap1, gap2, 0)` (line 166).  The fill order of the
JavaScript loops (row-major) only ever reads cells above or to the left,
so the loop nest computes exactly this recurrence. -/
def nextRow (mt mm gp : Int) (c1 : Char) (s2 : List Char) (prev : Nat → Int)
    (iv : Int) : Nat → Int
  | 0 => iv
  | j + 1 =>
      max (max (max (prev j + subScore mt mm c1 (s2.getD j ' '))
        (prev (j + 1) + gp)) (nextRow mt mm gp c1 s2 prev iv j + gp)) 0

/-- The value of cell `(i, j)` of the matrix returned by `_buildMatrix`
(`C6-Align.gs` lines 139-171).  Row 0 and column 0 are `j * gapScore`
resp. `i * gapScore` (lines 152-158, not floored at 0); interior cells
follow the recurrence of `nextRow`.  The matrix has
`(|seq1|+1) × (|seq2|+1)` cells; this function is total in `i, j`, and
out-of-range character reads (which the JavaScript loops never perform)
default to `' '`. -/
def buildMatrix (s1 s2 : List Char) (mt mm gp : Int) : Nat → Nat → Int
  | 0 => fun j => (j : Int) * gp
  | i + 1 =>
      nextRow mt mm gp (s1.getD i ' ') s2 (buildMatrix s1 s2 mt mm gp i)
        (((i : Int) + 1) * gp)

/-- Row-major enumeration of all matrix cells, mirroring the scan order of
the maximum search in `_traceback` (`C6-Align.gs` lines 192-200). -/
def allPairs (m n : Nat) : List (Nat × Nat) :=
  (List.range m).flatMap fun i => (List.range n).map fun j => (i, j)

/-- The scan order of the cluster-pair loops in `constructGuideTree` and
`progressiveAlignment` (`playground.gs` lines 68-77 and 111-127):
outer index ascending, inner index strictly larger, ascending. -/
def pairList (n : Nat) : List (Nat × Nat) :=
  (List.range n).flatMap fun i =>
    ((List.range n).filter fun j => i < j).map fun j => (i, j)

/-- One comparison step of the strict-improvement scans below: a `none`
accumulator models the JavaScript sentinel (`-Infinity` for the maximum
search of `_traceback`, `Infinity` for the minimum searches of
`constructGuideTree` and `progressiveAlignment`), which any real value
beats; an incumbent is replaced exactly when strictly beaten, so the
first occurrence of the best value wins ties. -/
def scanStep {α β : Type} (better : β → β → Bool) (val : α → β)
    (acc : Option α) (x : α) : Option α :=
  match acc with
  | none => some x
  | some b => if better (val x) (val b) then some x else acc

/-- A strict-improvement scan, the shared shape of the maximum search of
`_traceback` (`C6-Align.gs` lines 188-200) and the minimum searches of
`constructGuideTree` and `progressiveAlignment`
(`playground.gs` lines 63-77 and 106-127). -/
def scanBest {α β : Type} (better : β → β → Bool) (val : α → β) :
    List α → Option α :=
  List.foldl (scanStep better val) none

/-- The cell where `_traceback` starts (`C6-Align.gs` lines 188-203): the
first cell, in row-major order, holding the maximum value of the entire
matrix.  The JavaScript initializer is `maxVal = -Infinity`,
`maxI = M-1`, `maxJ = N-1`; the scan always visits `(0,0)` first and
`matrix[0][0] > -Infinity`, so the initial indices only survive for an
empty scan, which cannot happen (the matrix always has at least one
cell); the `getD` default records them anyway. -/
def findMaxCell (s1 s2 : List Char) (mt mm gp : Int) : Nat × Nat :=
  (scanBest (fun a b => decide (b < a))
      (fun p => buildMatrix s1 s2 mt mm gp p.1 p.2)
      (allPairs (s1.length + 1) (s2.length + 1))).getD
    (s1.length, s2.length)

/-- The guard of the diagonal branch of the traceback walk
(`C6-Align.gs` lines 209 and 213-215).  When `i = 0` or `j = 0` the
JavaScript `diagonalScore` is `-Infinity` and the equality test is
false against the finite `currentScore`, hence the positivity guards. -/
abbrev diagCond (s1 s2 : List Char) (mt mm gp : Int) (i j : Nat) : Prop :=
  0 < i ∧ 0 < j ∧
    buildMatrix s1 s2 mt mm gp i j =
      buildMatrix s1 s2 mt mm gp (i - 1) (j - 1) +
        subScore mt mm (s1.getD (i - 1) ' ') (s2.getD (j - 1) ' ')

/-- The guard of the up-step branch (`C6-Align.gs` lines 210 and 220). -/
abbrev upCond (s1 s2 : List Char) (mt mm gp : Int) (i j : Nat) : Prop :=
  0 < i ∧
    buildMatrix s1 s2 mt mm gp i j =
      buildMatrix s1 s2 mt mm gp (i - 1) j + gp

/-- The guard of the left-step branch (`C6-Align.gs` lines 211 and 224). -/
abbrev leftCond (s1 s2 : List Char) (mt mm gp : Int) (i j : Nat) : Prop :=
  0 < j ∧
    buildMatrix s1 s2 mt mm gp i j =
      buildMatrix s1 s2 mt mm gp i (j - 1) + gp

/-- Result of the traceback walk: the two aligned strings (already in
final left-to-right order, i.e. after the `reverse()` of
`C6-Align.gs` lines 233-236) together with the values of the loop
indices `i`, `j` at loop exit. -/
structure TBResult where
  a1 : List Char
  a2 : List Char
  fi : Nat
  fj : Nat
deriving DecidableEq, Repr

/-- The `while (i > 0 || j > 0)` walk of `_traceback`
(`C6-Align.gs` lines 207-231), written with explicit fuel.  Every
iteration decreases `i + j` by at least one, so fuel `i + j` is always
sufficient; the fuel-0 fallback (which returns the state unchanged, like
the `break`) is unreachable from `traceback` below.  The JavaScript
pushes one symbol per side per iteration and reverses at the end, which
is the same as appending on the way out of this recursion.  The final
`else` branch is the bare `break` of line 229: the walk ends silently at
the current `(i, j)`. -/
def tbGo (s1 s2 : List Char) (mt mm gp : Int) : Nat → Nat → Nat → TBResult
  | 0, i, j => ⟨[], [], i, j⟩
  | fuel + 1, i, j =>
      if i = 0 ∧ j = 0 then ⟨[], [], i, j⟩
      else if diagCond s1 s2 mt mm gp i j then
        let p := tbGo s1 s2 mt mm gp fuel (i - 1) (j - 1)
        ⟨p.a1 ++ [s1.getD (i - 1) ' '], p.a2 ++ [s2.getD (j - 1) ' '], p.fi, p.fj⟩
      else if upCond s1 s2 mt mm gp i j then
        let p := tbGo s1 s2 mt mm gp fuel (i - 1) j
        ⟨p.a1 ++ [s1.getD (i - 1) ' '], p.a2 ++ ['-'], p.fi, p.fj⟩
      else if leftCond s1 s2 mt mm gp i j then
        let p := tbGo s1 s2 mt mm gp fuel i (j - 1)
        ⟨p.a1 ++ ['-'], p.a2 ++ [s2.getD (j - 1) ' '], p.fi, p.fj⟩
      else ⟨[], [], i, j⟩

/-- `_traceback` (`C6-Align.gs` lines 184-237).  Every call site in the
repository passes the matrix freshly produced by `_buildMatrix` on the
same two sequences, so the matrix argument is inlined as `buildMatrix`;
`M - 1 = |seq1|` and `N - 1 = |seq2|`. -/
def traceback (s1 s2 : List Char) (mt mm gp : Int) : TBResult :=
  let p := findMaxCell s1 s2 mt mm gp
  tbGo s1 s2 mt mm gp (p.1 + p.2) p.1 p.2

/-- The pairwise aligner of the specification: matrix build followed by
traceback, returning the pair of aligned strings
(`seq1_aligned`, `seq2_aligned`). -/
def pairwiseAlign (s1 s2 : String) (mt mm gp : Int) : String × String :=
  let r := traceback s1.toList s2.toList mt mm gp
  (String.mk r.a1, String.mk r.a2)

/-- The return value of `_traceback` (`C6-Align.gs` lines 233-236): a
plain object with the two named fields.  It is an object, not an array,
which matters for the call sites in `playground.gs` that array-destructure
it. -/
structure Alignment where
  seq1_aligned : String
  seq2_aligned : String
deriving DecidableEq, Repr

/-- `_buildMatrix` + `_traceback` as called inside `playground.gs`,
returning the `{seq1_aligned, seq2_aligned}` object. -/
def tracebackObj (s1 s2 : String) (mt mm gp : Int) : Alignment :=
  let r := traceback s1.toList s2.toList mt mm gp
  ⟨String.mk r.a1, String.mk r.a2⟩

/-- Modelled from the spec: `cleanup` is the sequence cleanup/validation
collaborator from `C6-Utils`, which is not among the files under `src/`
(it is only called there).  Per the specification it strips whitespace
and normalizes case, and an empty input sequence is rejected with
`InvalidInput`. -/
def cleanup (s : String) : Except JsError String :=
  let t := (s.toList.filter fun c => !c.isWhitespace).map Char.toUpper
  if t.isEmpty then .error .invalidInput else .ok (String.mk t)

/-- `calculateDistanceFromAlignment` (`playground.gs` lines 41-56).  Its
first statement is `const [alignedSeq1, alignedSeq2] = alignment;`, an
array-destructuring of `alignment`.  At every call site in the repository
(lines 32 and 119) `alignment` is the plain `{seq1_aligned, seq2_aligned}`
object returned by `_traceback`; a plain object is not iterable, so the
destructuring throws `TypeError` before any distance is computed. -/
def calculateDistanceFromAlignment (_alignment : Alignment)
    (_mt _mm _gp : Int) : Except JsError Rat :=
  .error .typeError

/-- `calculateDistanceMatrix` (`playground.gs` lines 20-39): for every
index pair `i < j` in scan order it aligns the two sequences and asks
`calculateDistanceFromAlignment` for the distance (which throws, see
above), then writes the distance symmetrically into a zero-initialized
matrix.  For fewer than two sequences the loop body never runs and the
zero matrix is returned. -/
def calculateDistanceMatrix (seqs : List String) (mt mm gp : Int) :
    Except JsError (List (List Rat)) := do
  let n := seqs.length
  let ds ← (pairList n).mapM fun p => do
    let d ← calculateDistanceFromAlignment
      (tracebackObj (seqs.getD p.1 "") (seqs.getD p.2 "") mt mm gp) mt mm gp
    pure (p, d)
  pure <| (List.range n).map fun i => (List.range n).map fun j =>
    if i < j then (ds.lookup (i, j)).getD 0
    else if j < i then (ds.lookup (j, i)).getD 0
    else 0

/-- `averageDistance` (`playground.gs` lines 88-100): the sum of the raw
distance-matrix entries over all cross pairs of member indices, divided
by the number of such pairs (the loop counter ends at
`|cluster1| * |cluster2|`). -/
def averageDistance (cluster1 cluster2 : List Nat)
    (distanceMatrix : List (List Rat)) : Rat :=
  (cluster1.flatMap fun i1 =>
      cluster2.map fun i2 => (distanceMatrix.getD i1 []).getD i2 0).sum /
    ((cluster1.length : Rat) * (cluster2.length : Rat))

/-- The minimum search of one `constructGuideTree` iteration
(`playground.gs` lines 63-77): scan all cluster pairs in `pairList`
order, keeping the first pair whose average distance is strictly below
the incumbent (initially `Infinity`, modelled by the `none` state of
`scanBest`).  Returns `none` exactly when there is no pair
(fewer than two clusters), in which case the JavaScript indices would
stay `-1`. -/
def gtSelect (clusters : List (List Nat)) (dm : List (List Rat)) :
    Option (Nat × Nat) :=
  scanBest (fun a b => decide (a < b))
    (fun p => averageDistance (clusters.getD p.1 []) (clusters.getD p.2 []) dm)
    (pairList clusters.length)

/-- One merge of `constructGuideTree` (`playground.gs` lines 79-82):
concatenate the two selected member lists (computed before the splice),
remove the cluster at the larger index, and overwrite the one at the
smaller index (which the removal did not shift, since the selected
indices satisfy `i < j`). -/
def gtStep (clusters : List (List Nat)) (dm : List (List Rat)) :
    List (List Nat) :=
  match gtSelect clusters dm with
  | none => clusters
  | some (i, j) =>
      (clusters.eraseIdx j).set i (clusters.getD i [] ++ clusters.getD j [])

/-- The `while (clusters.length > 1)` loop of `constructGuideTree`
(`playground.gs` lines 62-83), with explicit fuel and a merge-step
counter.  Each iteration removes exactly one cluster, so fuel
`clusters.length` is always sufficient; the fuel-0 fallback is
unreachable from `constructGuideTree` below. -/
def gtGo (dm : List (List Rat)) : Nat → List (List Nat) → Nat →
    List (List Nat) × Nat
  | 0, c, steps => (c, steps)
  | fuel + 1, c, steps =>
      if c.length ≤ 1 then (c, steps)
      else gtGo dm fuel (gtStep c dm) (steps + 1)

/-- The initial clusters of `constructGuideTree` (`playground.gs`
line 60): one singleton per distance-matrix row. -/
def initClusters (n : Nat) : List (List Nat) :=
  (List.range n).map fun i => [i]

/-- `constructGuideTree` (`playground.gs` lines 59-86): run the merge
loop and return `clusters[0]` — which is `undefined` (here `none`) for an
empty distance matrix. -/
def constructGuideTree (dm : List (List Rat)) : Option (List Nat) :=
  (gtGo dm dm.length (initClusters dm.length) 0).1.head?

/-- An entry of the mutable `guideTree` array inside
`progressiveAlignment`: initially a plain sequence index, after a merge a
two-element array of previous entries (`playground.gs` line 142). -/
inductive GTEntry where
  | idx : Nat → GTEntry
  | node : GTEntry → GTEntry → GTEntry
deriving DecidableEq, Repr

/-- `sequences[index]` followed by use as a string inside
`progressiveAlignment` (`playground.gs` lines 113-117 and 130-134).
When `index` is a merged-node array, the property lookup yields
`undefined` and the subsequent `seq.length` inside `_buildMatrix` throws
`TypeError`; likewise for an out-of-range numeric index. -/
def seqGet (seqs : List String) : GTEntry → Except JsError String
  | .idx n => if h : n < seqs.length then .ok (seqs.get ⟨n, h⟩)
      else .error .typeError
  | .node _ _ => .error .typeError

/-- `align` (`playground.gs` lines 150-164), the gap-splicing helper:
walk the freshly aligned string; a symbol equal to the next unconsumed
symbol of the old profile is kept and the cursor advances, anything else
becomes a gap.  (`sequence[seqIndex]` out of range is `undefined`, which
the `===` test fails against any character.)  In every execution of the
repository this function is dead code, because `progressiveAlignment`
throws before reaching line 138; it is embedded for completeness. -/
def alignSplice (sequence : List Char) : List Char → Nat → List Char
  | [], _ => []
  | base :: rest, seqIndex =>
      if sequence.get? seqIndex = some base then
        base :: alignSplice sequence rest (seqIndex + 1)
      else
        '-' :: alignSplice sequence rest seqIndex

/-- The `while (guideTree.length > 1)` loop of `progressiveAlignment`
(`playground.gs` lines 105-145), with explicit fuel.  Each iteration
first recomputes, for every pair of entries, a fresh pairwise alignment
and its distance via `calculateDistanceFromAlignment` — which throws on
its first call (see above), so whenever the loop body runs at all the
whole function fails with `TypeError`.  Even if it did not, line 135
(`const [alignedSeq1, alignedSeq2] = _traceback(...)`)
array-destructures the `_traceback` object and throws, so the merge code
of lines 137-144 is unreachable; accordingly the body below ends in
`TypeError` after the selection. -/
def paGo (seqs : List String) (mt mm gp : Int) :
    Nat → List GTEntry → List (List Char) →
    Except JsError (List (List Char))
  | 0, _, als => .ok als
  | fuel + 1, g, als =>
      if g.length ≤ 1 then .ok als
      else do
        let ds ← (pairList g.length).mapM fun p => do
          let s1 ← seqGet seqs (g.getD p.1 (.idx 0))
          let s2 ← seqGet seqs (g.getD p.2 (.idx 0))
          let d ← calculateDistanceFromAlignment (tracebackObj s1 s2 mt mm gp)
            mt mm gp
          pure (p, d)
        match scanBest (fun a b => decide (a < b))
            (fun x => x.2) ds with
        | none => paGo seqs mt mm gp fuel g als
        | some _ => .error .typeError

/-- `progressiveAlignment` (`playground.gs` lines 102-148).  A `none`
guide tree models the `undefined` returned by `constructGuideTree` on an
empty input, on which `guideTree.length` throws. -/
def progressiveAlignment (seqs : List String) (gt : Option (List Nat))
    (mt mm gp : Int) : Except JsError (List String) :=
  match gt with
  | none => .error .typeError
  | some g0 => do
      let als ← paGo seqs mt mm gp g0.length (g0.map .idx)
        (seqs.map String.toList)
      pure (als.map String.mk)

/-- `String.padStart(4, ' ')` of `playground.gs` line 175. -/
def padStart4 (s : String) : String :=
  String.mk (List.replicate (4 - s.length) ' ' ++ s.toList)

/-- `str.match(/.{1,k}/g)` chunking of `playground.gs` line 177 for a
non-empty string and `k ≥ 1`, with explicit fuel (the source string's
length always suffices). -/
def chunksGo (k : Nat) : Nat → List Char → List (List Char)
  | 0, l => if l.isEmpty then [] else [l]
  | fuel + 1, l =>
      if l.isEmpty then [] else l.take k :: chunksGo k fuel (l.drop k)

/-- `formatMultipleAlignment` (`playground.gs` lines 166-184).
Failure modes preserved from JavaScript: an empty sequence list makes
`alignedSequences[0].length` throw; a chunk line that is empty (a profile
shorter than the first one) makes `''.match(...)` return `null` and
`null.join` throw.  A zero `basePerChunk * chunksPerLine` would make the
JavaScript loop run forever; that non-termination is modelled as
`TypeError` and is exercised by no claim. -/
def formatMultipleAlignment (aligned : List String) (bpc cpl : Nat) :
    Except JsError (List (List String)) :=
  match aligned with
  | [] => .error .typeError
  | a0 :: _ =>
      let len := a0.length
      let chunkSize := bpc * cpl
      if chunkSize = 0 then .error .typeError
      else do
        let blocks ← (List.range ((len + chunkSize - 1) / chunkSize)).mapM
          fun bi => do
            let rows ← (List.range aligned.length).mapM fun j => do
              let seqj := (aligned.getD j "").toList
              let line := (seqj.drop (bi * chunkSize)).take chunkSize
              if line.isEmpty then throw .typeError
              else pure [padStart4 (Nat.repr (j * 2)) ++ " ",
                String.mk (List.intercalate [' '] (chunksGo bpc line.length line))]
            pure (rows ++ [[""]])
        pure blocks.flatten

/-- `multipleSequenceAlignment` (`playground.gs` lines 1-18), the
multiple-sequence-alignment entry point. -/
def multipleSequenceAlignment (sequences : List String) (bpc cpl : Nat)
    (mt mm gp : Int) : Except JsError (List (List String)) := do
  let seqs ← sequences.mapM cleanup
  let dm ← calculateDistanceMatrix seqs mt mm gp
  let gt := constructGuideTree dm
  let aligned ← progressiveAlignment seqs gt mt mm gp
  formatMultipleAlignment aligned bpc cpl

/-- One position of the symbol track of `_formatAsArray`
(`C6-Align.gs` lines 88-96): `'|'` when the two symbols are equal
(tested first, so a column of two gaps is reported as a match),
otherwise `' '` when either symbol is the gap, otherwise `'x'`. -/
def symAt (c1 c2 : Char) : Char :=
  if c1 = c2 then '|' else if c1 = '-' ∨ c2 = '-' then ' ' else 'x'

/-- The symbol track built by `_formatAsArray` (`C6-Align.gs`
lines 87-96): one symbol per position of the first aligned string. -/
def mkSymbols (s1 s2 : List Char) : List Char :=
  (List.range s1.length).map fun i => symAt (s1.getD i ' ') (s2.getD i ' ')

/-- Proof-side description of `scanBest` once the sentinel has been
replaced: a plain fold keeping the incumbent unless strictly beaten. -/
def bestOf {α β : Type} (better : β → β → Bool) (val : α → β) (b : α)
    (l : List α) : α :=
  l.foldl (fun b x => if better (val x) (val b) then x else b) b

/-- `p` is the first element of `l` attaining the minimum of `val`:
everything before it is strictly larger, everything after it at least as
large. -/
def FirstMinAt (val : Nat × Nat → Rat) (l : List (Nat × Nat))
    (p : Nat × Nat) : Prop :=
  ∃ l1 l2, l = l1 ++ p :: l2 ∧ (∀ q ∈ l1, val p < val q) ∧
    ∀ q ∈ l2, val p ≤ val q

/-! ### Generic facts about the strict-improvement scan -/

theorem foldl_scanStep_some {α β : Type} (better : β → β → Bool)
    (val : α → β) :
    ∀ (l : List α) (b : α),
      List.foldl (scanStep better val) (some b) l =
        some (bestOf better val b l) := by
  intro l
  induction l with
  | nil => intro b; rfl
  | cons y ys ih =>
      intro b
      have h1 : List.foldl (scanStep better val) (some b) (y :: ys) =
          List.foldl (scanStep better val)
            (some (if better (val y) (val b) then y else b)) ys := by
        rw [List.foldl_cons]
        congr 1
        by_cases h : better (val y) (val b) = true <;>
          simp [scanStep, h]
      rw [h1, ih]
      rfl

theorem scanBest_cons {α β : Type} (better : β → β → Bool) (val : α → β)
    (x : α) (l : List α) :
    scanBest better val (x :: l) = some (bestOf better val x l) := by
  show List.foldl (scanStep better val) (scanStep better val none x) l = _
  exact foldl_scanStep_some better val l x

theorem bestOf_mem {α β : Type} (better : β → β → Bool) (val : α → β) :
    ∀ (l : List α) (b : α), bestOf better val b l ∈ b :: l := by
  intro l
  induction l with
  | nil => intro b; exact List.mem_cons_self _ _
  | cons y ys ih =>
      intro b
      by_cases h : better (val y) (val b) = true
      · have h1 : bestOf better val b (y :: ys) = bestOf better val y ys := by
          show bestOf better val (if better (val y) (val b) then y else b) ys = _
          rw [if_pos h]
        rw [h1]
        have h2 := ih y
        simp only [List.mem_cons] at h2 ⊢
        tauto
      · have h1 : bestOf better val b (y :: ys) = bestOf better val b ys := by
          show bestOf better val (if better (val y) (val b) then y else b) ys = _
          rw [if_neg h]
        rw [h1]
        have h2 := ih b
        simp only [List.mem_cons] at h2 ⊢
        tauto

theorem scanBest_mem {α β : Type} {better : β → β → Bool} {val : α → β}
    {l : List α} {r : α} (h : scanBest better val l = some r) : r ∈ l := by
  cases l with
  | nil => exact absurd h (by simp [scanBest])
  | cons x xs =>
      rw [scanBest_cons] at h
      have := bestOf_mem better val xs x
      rwa [Option.some_inj.mp h] at this

/-- The scan returns the first element attaining the optimum: everything
strictly before the result is strictly beaten by it, and nothing at or
after the result strictly beats it.  The two hypotheses are the only
order-like facts needed: transitivity of `better`, and that beating an
element which some third element fails to beat also beats that third
element. -/
theorem bestOf_spec {α β : Type} (better : β → β → Bool) (val : α → β)
    (htrans : ∀ a b c : β,
      better a b = true → better b c = true → better a c = true)
    (hneg : ∀ a b c : β,
      better a b = true → better c b = false → better a c = true) :
    ∀ (l : List α) (b : α), ∃ l1 l2 : List α,
      b :: l = l1 ++ bestOf better val b l :: l2 ∧
      (∀ x ∈ l1, better (val (bestOf better val b l)) (val x) = true) ∧
      (∀ y ∈ l2, better (val y) (val (bestOf better val b l)) = false) := by
  intro l
  induction l with
  | nil =>
      intro b
      exact ⟨[], [], rfl, by simp, by simp⟩
  | cons x xs ih =>
      intro b
      cases h : better (val x) (val b) with
      | true =>
        -- the head strictly beats the initial incumbent
        have hstep : bestOf better val b (x :: xs) = bestOf better val x xs := by
          show bestOf better val (if better (val x) (val b) then x else b) xs = _
          rw [if_pos h]
        rw [hstep]
        obtain ⟨l1, l2, hdec, hP1, hP2⟩ := ih x
        refine ⟨b :: l1, l2, by rw [List.cons_append, ← hdec], ?_, hP2⟩
        intro z hz
        rcases List.mem_cons.mp hz with hz | hz
        · subst hz
          cases l1 with
          | nil =>
              have hx : x = bestOf better val x xs := by
                simp only [List.nil_append, List.cons.injEq] at hdec
                exact hdec.1
              rw [← hx]
              exact h
          | cons a t =>
              have hd2 : a = x ∧ xs = t ++ bestOf better val x xs :: l2 := by
                simp only [List.cons_append, List.cons.injEq] at hdec
                exact ⟨hdec.1.symm, hdec.2⟩
              have h3 : better (val (bestOf better val x xs)) (val x) = true := by
                have := hP1 a (List.mem_cons_self a t)
                rwa [hd2.1] at this
              exact htrans _ _ _ h3 h
        · exact hP1 z hz
      | false =>
        -- the head does not beat the incumbent
        have hstep : bestOf better val b (x :: xs) = bestOf better val b xs := by
          show bestOf better val (if better (val x) (val b) then x else b) xs = _
          rw [if_neg (by simp [h])]
        rw [hstep]
        obtain ⟨l1, l2, hdec, hP1, hP2⟩ := ih b
        cases l1 with
        | nil =>
            -- the result is b itself; x joins the tail side
            have hd2 : b = bestOf better val b xs ∧ xs = l2 := by
              simp only [List.nil_append, List.cons.injEq] at hdec
              exact hdec
            refine ⟨[], x :: xs, by simp [← hd2.1], by simp, ?_⟩
            intro y hy
            rcases List.mem_cons.mp hy with hy | hy
            · subst hy; rw [← hd2.1]; exact h
            · exact hP2 y (hd2.2 ▸ hy)
        | cons a t =>
            have hd2 : a = b ∧ xs = t ++ bestOf better val b xs :: l2 := by
              simp only [List.cons_append, List.cons.injEq] at hdec
              exact ⟨hdec.1.symm, hdec.2⟩
            refine ⟨b :: x :: t, l2, ?_, ?_, hP2⟩
            · simp only [List.cons_append]
              rw [← hd2.2]
            · intro z hz
              have hrb : better (val (bestOf better val b xs)) (val b) = true := by
                have := hP1 a (List.mem_cons_self a t)
                rwa [hd2.1] at this
              rcases List.mem_cons.mp hz with hz | hz
              · subst hz; exact hrb
              · rcases List.mem_cons.mp hz with hz | hz
                · subst hz; exact hneg _ _ _ hrb h
                · exact hP1 z (hd2.1 ▸ List.mem_cons_of_mem a hz)

/-! ### The score matrix -/

theorem buildMatrix_zero_left (s1 s2 : List Char) (mt mm gp : Int)
    (j : Nat) : buildMatrix s1 s2 mt mm gp 0 j = (j : Int) * gp := rfl

theorem buildMatrix_succ_zero (s1 s2 : List Char) (mt mm gp : Int)
    (i : Nat) :
    buildMatrix s1 s2 mt mm gp (i + 1) 0 = ((i : Int) + 1) * gp := rfl

theorem buildMatrix_succ_succ (s1 s2 : List Char) (mt mm gp : Int)
    (i j : Nat) :
    buildMatrix s1 s2 mt mm gp (i + 1) (j + 1) =
      max (max (max (buildMatrix s1 s2 mt mm gp i j +
          subScore mt mm (s1.getD i ' ') (s2.getD j ' '))
        (buildMatrix s1 s2 mt mm gp i (j + 1) + gp))
        (buildMatrix s1 s2 mt mm gp (i + 1) j + gp)) 0 := rfl

/-- C2: the score matrix satisfies exactly the specified equations: the
boundary row and column hold the unclamped multiples `i*gap`, `j*gap`,
and each interior cell is the 0-floored maximum of the diagonal, up and
left candidates, the diagonal one scoring `match` exactly when the two
(0-based) characters `s1[i]`, `s2[j]` coincide. -/
theorem claim_C2 (s1 s2 : List Char) (mt mm gp : Int) (i j : Nat)
    (hi : i < s1.length) (hj : j < s2.length) :
    buildMatrix s1 s2 mt mm gp 0 0 = 0 * gp ∧
    buildMatrix s1 s2 mt mm gp (i + 1) 0 = ((i + 1 : Nat) : Int) * gp ∧
    buildMatrix s1 s2 mt mm gp 0 (j + 1) = ((j + 1 : Nat) : Int) * gp ∧
    buildMatrix s1 s2 mt mm gp (i + 1) (j + 1) =
      max (max (max (buildMatrix s1 s2 mt mm gp i j +
          (if s1.get ⟨i, hi⟩ = s2.get ⟨j, hj⟩ then mt else mm))
        (buildMatrix s1 s2 mt mm gp i (j + 1) + gp))
        (buildMatrix s1 s2 mt mm gp (i + 1) j + gp)) 0 := by
  refine ⟨rfl, ?_, ?_, ?_⟩
  · rw [buildMatrix_succ_zero]; push_cast; rfl
  · rw [buildMatrix_zero_left]
  · rw [buildMatrix_succ_succ]
    have hsub : subScore mt mm (s1.getD i ' ') (s2.getD j ' ') =
        if s1.get ⟨i, hi⟩ = s2.get ⟨j, hj⟩ then mt else mm := by
      unfold subScore
      rw [List.getD_eq_getElem s1 ' ' hi, List.getD_eq_getElem s2 ' ' hj]
      rfl
    rw [hsub]

theorem claim_C2_witness :
    buildMatrix ['A', 'T'] ['T'] 1 (-1) (-1) 0 0 = 0 * (-1) ∧
    buildMatrix ['A', 'T'] ['T'] 1 (-1) (-1) 2 0 = ((2 : Nat) : Int) * (-1) ∧
    buildMatrix ['A', 'T'] ['T'] 1 (-1) (-1) 0 1 = ((1 : Nat) : Int) * (-1) ∧
    buildMatrix ['A', 'T'] ['T'] 1 (-1) (-1) 2 1 =
      max (max (max (buildMatrix ['A', 'T'] ['T'] 1 (-1) (-1) 1 0 +
          (if (['A', 'T'] : List Char).get ⟨1, by decide⟩ =
            (['T'] : List Char).get ⟨0, by decide⟩ then 1 else -1))
        (buildMatrix ['A', 'T'] ['T'] 1 (-1) (-1) 1 1 + (-1)))
        (buildMatrix ['A', 'T'] ['T'] 1 (-1) (-1) 2 0 + (-1))) 0 :=
  claim_C2 ['A', 'T'] ['T'] 1 (-1) (-1) 1 0 (by decide) (by decide)

/-! ### The traceback walk -/

theorem tbGo_len_eq (s1 s2 : List Char) (mt mm gp : Int) (fuel : Nat) :
    ∀ i j, (tbGo s1 s2 mt mm gp fuel i j).a1.length =
      (tbGo s1 s2 mt mm gp fuel i j).a2.length := by
  induction fuel with
  | zero => intro i j; rfl
  | succ f ih =>
      intro i j
      simp only [tbGo]
      split
      · rfl
      · split
        · simp [ih]
        · split
          · simp [ih]
          · split
            · simp [ih]
            · rfl

theorem tbGo_len_le (s1 s2 : List Char) (mt mm gp : Int) (fuel : Nat) :
    ∀ i j, (tbGo s1 s2 mt mm gp fuel i j).a1.length ≤ i + j := by
  induction fuel with
  | zero => intro i j; simp [tbGo]
  | succ f ih =>
      intro i j
      simp only [tbGo]
      split
      · simp
      · split
        · next h =>
            have := ih (i - 1) (j - 1)
            have h1 : 0 < i := h.1
            have h2 : 0 < j := h.2.1
            simp only [List.length_append, List.length_singleton]
            omega
        · split
          · next h =>
              have := ih (i - 1) j
              have h1 : 0 < i := h.1
              simp only [List.length_append, List.length_singleton]
              omega
          · split
            · next h =>
                have := ih i (j - 1)
                have h1 : 0 < j := h.1
                simp only [List.length_append, List.length_singleton]
                omega
            · simp

theorem tbGo_exit (s1 s2 : List Char) (mt mm gp : Int) (fuel : Nat) :
    ∀ i j, i + j ≤ fuel →
      ((tbGo s1 s2 mt mm gp fuel i j).fi = 0 ∧
        (tbGo s1 s2 mt mm gp fuel i j).fj = 0) ∨
      (¬ diagCond s1 s2 mt mm gp (tbGo s1 s2 mt mm gp fuel i j).fi
          (tbGo s1 s2 mt mm gp fuel i j).fj ∧
        ¬ upCond s1 s2 mt mm gp (tbGo s1 s2 mt mm gp fuel i j).fi
          (tbGo s1 s2 mt mm gp fuel i j).fj ∧
        ¬ leftCond s1 s2 mt mm gp (tbGo s1 s2 mt mm gp fuel i j).fi
          (tbGo s1 s2 mt mm gp fuel i j).fj ∧
        (0 < (tbGo s1 s2 mt mm gp fuel i j).fi ∨
          0 < (tbGo s1 s2 mt mm gp fuel i j).fj)) := by
  induction fuel with
  | zero =>
      intro i j hle
      left
      have hi : i = 0 := by omega
      have hj : j = 0 := by omega
      subst hi; subst hj
      exact ⟨rfl, rfl⟩
  | succ f ih =>
      intro i j hle
      simp only [tbGo]
      split
      · next h => left; exact ⟨h.1, h.2⟩
      · next h0 =>
        split
        · next h =>
            have h1 : 0 < i := h.1
            have h2 : 0 < j := h.2.1
            exact ih (i - 1) (j - 1) (by omega)
        · next hd =>
          split
          · next h =>
              have h1 : 0 < i := h.1
              exact ih (i - 1) j (by omega)
          · next hu =>
            split
            · next h =>
                have h1 : 0 < j := h.1
                exact ih i (j - 1) (by omega)
            · next hl =>
                right
                refine ⟨hd, hu, hl, ?_⟩
                show 0 < i ∨ 0 < j
                omega

theorem mem_allPairs {m n : Nat} {p : Nat × Nat} :
    p ∈ allPairs m n ↔ p.1 < m ∧ p.2 < n := by
  obtain ⟨a, b⟩ := p
  simp only [allPairs, List.mem_flatMap, List.mem_map, List.mem_range,
    Prod.mk.injEq]
  constructor
  · rintro ⟨i, hi, j, hj, rfl, rfl⟩
    exact ⟨hi, hj⟩
  · rintro ⟨ha, hb⟩
    exact ⟨a, ha, b, hb, rfl, rfl⟩

theorem mem_pairList {n : Nat} {p : Nat × Nat} :
    p ∈ pairList n ↔ p.1 < p.2 ∧ p.2 < n := by
  obtain ⟨a, b⟩ := p
  simp only [pairList, List.mem_flatMap, List.mem_map, List.mem_filter,
    List.mem_range, Prod.mk.injEq, decide_eq_true_iff]
  constructor
  · rintro ⟨i, hi, j, ⟨hj, hij⟩, rfl, rfl⟩
    exact ⟨hij, hj⟩
  · rintro ⟨hab, hb⟩
    exact ⟨a, lt_trans hab hb, b, ⟨hb, hab⟩, rfl, rfl⟩

theorem findMaxCell_le (s1 s2 : List Char) (mt mm gp : Int) :
    (findMaxCell s1 s2 mt mm gp).1 ≤ s1.length ∧
      (findMaxCell s1 s2 mt mm gp).2 ≤ s2.length := by
  unfold findMaxCell
  cases h : scanBest (fun a b => decide (b < a))
      (fun p => buildMatrix s1 s2 mt mm gp p.1 p.2)
      (allPairs (s1.length + 1) (s2.length + 1)) with
  | none => simp [Option.getD]
  | some r =>
      have hm := scanBest_mem h
      rw [mem_allPairs] at hm
      simp only [Option.getD_some]
      omega

/-- C1 (amended): for every pair of input sequences and any scoring
parameters the two strings returned by the pairwise aligner have equal
length, and that common length is at most `|s1| + |s2|`; it can be
smaller than `max(|s1|, |s2|)`, because the traceback starts at the
global-maximum cell and can stop before consuming either sequence. -/
theorem claim_C1_amended (s1 s2 : String) (mt mm gp : Int) :
    (pairwiseAlign s1 s2 mt mm gp).1.length =
      (pairwiseAlign s1 s2 mt mm gp).2.length ∧
    (pairwiseAlign s1 s2 mt mm gp).1.length ≤ s1.length + s2.length := by
  have e1 : (pairwiseAlign s1 s2 mt mm gp).1.length =
      (tbGo s1.toList s2.toList mt mm gp
        ((findMaxCell s1.toList s2.toList mt mm gp).1 +
          (findMaxCell s1.toList s2.toList mt mm gp).2)
        (findMaxCell s1.toList s2.toList mt mm gp).1
        (findMaxCell s1.toList s2.toList mt mm gp).2).a1.length := rfl
  have e2 : (pairwiseAlign s1 s2 mt mm gp).2.length =
      (tbGo s1.toList s2.toList mt mm gp
        ((findMaxCell s1.toList s2.toList mt mm gp).1 +
          (findMaxCell s1.toList s2.toList mt mm gp).2)
        (findMaxCell s1.toList s2.toList mt mm gp).1
        (findMaxCell s1.toList s2.toList mt mm gp).2).a2.length := rfl
  rw [e1, e2]
  refine ⟨tbGo_len_eq s1.toList s2.toList mt mm gp _ _ _, ?_⟩
  have h1 := tbGo_len_le s1.toList s2.toList mt mm gp
    ((findMaxCell s1.toList s2.toList mt mm gp).1 +
      (findMaxCell s1.toList s2.toList mt mm gp).2)
    (findMaxCell s1.toList s2.toList mt mm gp).1
    (findMaxCell s1.toList s2.toList mt mm gp).2
  have h2 := findMaxCell_le s1.toList s2.toList mt mm gp
  have h3 : s1.length = s1.toList.length := rfl
  have h4 : s2.length = s2.toList.length := rfl
  omega

/-- C1 (counterexample): aligning the non-empty sequences `"A"` and
`"C"` with the default scores returns two empty strings, whose common
length 0 is smaller than `max(|s1|, |s2|) = 1`.  (The whole matrix is
`≤ 0`, so the traceback starts at cell `(0,0)` and the walk never
runs.) -/
theorem claim_C1_counterexample :
    pairwiseAlign "A" "C" 1 (-1) (-1) = ("", "") ∧
      (pairwiseAlign "A" "C" 1 (-1) (-1)).1.length = 0 ∧
      max "A".length "C".length = 1 := by
  refine ⟨?_, ?_, rfl⟩ <;> decide

/-- C3 (amended): the traceback walk either runs until both indices
reach 0, or it stops, silently, at a cell with a positive index where
none of the three predecessor equalities holds; no error is reported
(the returned value carries no error case). -/
theorem claim_C3_amended (s1 s2 : List Char) (mt mm gp : Int) :
    ((traceback s1 s2 mt mm gp).fi = 0 ∧ (traceback s1 s2 mt mm gp).fj = 0) ∨
    (¬ diagCond s1 s2 mt mm gp (traceback s1 s2 mt mm gp).fi
        (traceback s1 s2 mt mm gp).fj ∧
      ¬ upCond s1 s2 mt mm gp (traceback s1 s2 mt mm gp).fi
        (traceback s1 s2 mt mm gp).fj ∧
      ¬ leftCond s1 s2 mt mm gp (traceback s1 s2 mt mm gp).fi
        (traceback s1 s2 mt mm gp).fj ∧
      (0 < (traceback s1 s2 mt mm gp).fi ∨
        0 < (traceback s1 s2 mt mm gp).fj)) := by
  unfold traceback
  exact tbGo_exit s1 s2 mt mm gp _ _ _ le_rfl

/-- C3 (counterexample): on sequences `"GA"`, `"CA"` with scores
`match = 2`, `mismatch = -1`, `gap = -1` the walk starts at cell `(2,2)`,
steps diagonally to `(1,1)`, where none of the three predecessor
equalities holds, and the `break` ends the walk there — the claim that
the walk either reports an error or continues until both indices reach 0
is false, since the exit state is `(1,1)` and the code has no error
report. -/
theorem claim_C3_counterexample :
    ¬ ((traceback "GA".toList "CA".toList 2 (-1) (-1)).fi = 0 ∧
      (traceback "GA".toList "CA".toList 2 (-1) (-1)).fj = 0) := by
  decide

theorem tbGo_no_gapgap (s1 s2 : List Char) (mt mm gp : Int)
    (g1 : '-' ∉ s1) (g2 : '-' ∉ s2) (fuel : Nat) :
    ∀ i j, i ≤ s1.length → j ≤ s2.length →
      ('-', '-') ∉ (tbGo s1 s2 mt mm gp fuel i j).a1.zip
        (tbGo s1 s2 mt mm gp fuel i j).a2 := by
  induction fuel with
  | zero => intro i j _ _; simp [tbGo]
  | succ f ih =>
      intro i j hi hj
      simp only [tbGo]
      split
      · simp
      · split
        · next h =>
            have h1 : 0 < i := h.1
            have h2 : 0 < j := h.2.1
            have hc1 : s1.getD (i - 1) ' ' ≠ '-' := by
              rw [List.getD_eq_getElem s1 ' ' (by omega)]
              exact fun hEq => g1 (hEq ▸ List.getElem_mem _)
            show ('-', '-') ∉
              ((tbGo s1 s2 mt mm gp f (i - 1) (j - 1)).a1 ++
                  [s1.getD (i - 1) ' ']).zip
                ((tbGo s1 s2 mt mm gp f (i - 1) (j - 1)).a2 ++
                  [s2.getD (j - 1) ' '])
            rw [List.zip_append (tbGo_len_eq s1 s2 mt mm gp f (i - 1) (j - 1))]
            intro hmem
            rcases List.mem_append.mp hmem with hmem | hmem
            · exact ih (i - 1) (j - 1) (by omega) (by omega) hmem
            · simp only [List.zip_cons_cons, List.zip_nil_right,
                List.mem_singleton, Prod.mk.injEq] at hmem
              exact hc1 hmem.1.symm
        · split
          · next h =>
              have h1 : 0 < i := h.1
              have hc1 : s1.getD (i - 1) ' ' ≠ '-' := by
                rw [List.getD_eq_getElem s1 ' ' (by omega)]
                exact fun hEq => g1 (hEq ▸ List.getElem_mem _)
              show ('-', '-') ∉
                ((tbGo s1 s2 mt mm gp f (i - 1) j).a1 ++
                    [s1.getD (i - 1) ' ']).zip
                  ((tbGo s1 s2 mt mm gp f (i - 1) j).a2 ++ ['-'])
              rw [List.zip_append (tbGo_len_eq s1 s2 mt mm gp f (i - 1) j)]
              intro hmem
              rcases List.mem_append.mp hmem with hmem | hmem
              · exact ih (i - 1) j (by omega) hj hmem
              · simp only [List.zip_cons_cons, List.zip_nil_right,
                  List.mem_singleton, Prod.mk.injEq] at hmem
                exact hc1 hmem.1.symm
          · split
            · next h =>
                have h2 : 0 < j := h.1
                have hc2 : s2.getD (j - 1) ' ' ≠ '-' := by
                  rw [List.getD_eq_getElem s2 ' ' (by omega)]
                  exact fun hEq => g2 (hEq ▸ List.getElem_mem _)
                show ('-', '-') ∉
                  ((tbGo s1 s2 mt mm gp f i (j - 1)).a1 ++ ['-']).zip
                    ((tbGo s1 s2 mt mm gp f i (j - 1)).a2 ++
                      [s2.getD (j - 1) ' '])
                rw [List.zip_append (tbGo_len_eq s1 s2 mt mm gp f i (j - 1))]
                intro hmem
                rcases List.mem_append.mp hmem with hmem | hmem
                · exact ih i (j - 1) hi (by omega) hmem
                · simp only [List.zip_cons_cons, List.zip_nil_right,
                    List.mem_singleton, Prod.mk.injEq] at hmem
                  exact hc2 hmem.2.symm
            · simp

/-- C10: for non-empty input sequences over the sequence alphabet (which
does not contain the gap symbol `'-'`), no column of the returned
alignment holds the gap symbol on both sides: every traceback step emits
a gap on at most one side. -/
theorem claim_C10 (s1 s2 : String) (h1 : s1 ≠ "") (h2 : s2 ≠ "")
    (g1 : '-' ∉ s1.toList) (g2 : '-' ∉ s2.toList) (mt mm gp : Int) :
    ('-', '-') ∉ (pairwiseAlign s1 s2 mt mm gp).1.toList.zip
      (pairwiseAlign s1 s2 mt mm gp).2.toList := by
  have e1 : (pairwiseAlign s1 s2 mt mm gp).1.toList =
      (tbGo s1.toList s2.toList mt mm gp
        ((findMaxCell s1.toList s2.toList mt mm gp).1 +
          (findMaxCell s1.toList s2.toList mt mm gp).2)
        (findMaxCell s1.toList s2.toList mt mm gp).1
        (findMaxCell s1.toList s2.toList mt mm gp).2).a1 := rfl
  have e2 : (pairwiseAlign s1 s2 mt mm gp).2.toList =
      (tbGo s1.toList s2.toList mt mm gp
        ((findMaxCell s1.toList s2.toList mt mm gp).1 +
          (findMaxCell s1.toList s2.toList mt mm gp).2)
        (findMaxCell s1.toList s2.toList mt mm gp).1
        (findMaxCell s1.toList s2.toList mt mm gp).2).a2 := rfl
  rw [e1, e2]
  have h2 := findMaxCell_le s1.toList s2.toList mt mm gp
  exact tbGo_no_gapgap s1.toList s2.toList mt mm gp g1 g2 _ _ _ h2.1 h2.2

theorem claim_C10_witness :
    ("AC" : String) ≠ "" ∧ ("A" : String) ≠ "" ∧
    '-' ∉ "AC".toList ∧ '-' ∉ "A".toList ∧
    ('-', '-') ∉ (pairwiseAlign "AC" "A" 1 (-1) (-1)).1.toList.zip
      (pairwiseAlign "AC" "A" 1 (-1) (-1)).2.toList :=
  ⟨by decide, by decide, by decide, by decide,
    claim_C10 "AC" "A" (by decide) (by decide) (by decide) (by decide)
      1 (-1) (-1)⟩

/-! ### Self-alignment with the default scores -/

theorem buildMatrix_self_le (s : List Char) :
    ∀ i j, buildMatrix s s 1 (-1) (-1) i j ≤ (i : Int) ∧
      buildMatrix s s 1 (-1) (-1) i j ≤ (j : Int) := by
  intro i
  induction i with
  | zero =>
      intro j
      rw [buildMatrix_zero_left]
      omega
  | succ i ih =>
      intro j
      induction j with
      | zero =>
          rw [buildMatrix_succ_zero]
          omega
      | succ j ihj =>
          rw [buildMatrix_succ_succ]
          have hA := ih j
          have hB := ih (j + 1)
          have hC := ihj
          have hsub : subScore 1 (-1) (s.getD i ' ') (s.getD j ' ') ≤ 1 := by
            unfold subScore; split <;> omega
          simp only [max_le_iff]
          omega

theorem buildMatrix_self_diag (s : List Char) :
    ∀ i, buildMatrix s s 1 (-1) (-1) i i = (i : Int) := by
  intro i
  induction i with
  | zero => simp [buildMatrix_zero_left]
  | succ i ih =>
      rw [buildMatrix_succ_succ]
      have hsub : subScore 1 (-1) (s.getD i ' ') (s.getD i ' ') = 1 :=
        if_pos rfl
      rw [hsub, ih]
      have hB := (buildMatrix_self_le s i (i + 1)).1
      have hC := (buildMatrix_self_le s (i + 1) i).2
      rw [max_eq_left (by omega :
        buildMatrix s s 1 (-1) (-1) i (i + 1) + (-1) ≤ (i : Int) + 1)]
      rw [max_eq_left (by omega :
        buildMatrix s s 1 (-1) (-1) (i + 1) i + (-1) ≤ (i : Int) + 1)]
      rw [max_eq_left (by omega : (0 : Int) ≤ (i : Int) + 1)]
      push_cast
      ring

/-- On a self-alignment with the default scores the row-major maximum
search stops at the bottom-right corner: every other cell is strictly
below the diagonal value `|s|`. -/
theorem findMaxCell_self (s : List Char) :
    findMaxCell s s 1 (-1) (-1) = (s.length, s.length) := by
  have hne : allPairs (s.length + 1) (s.length + 1) ≠ [] := by
    intro hcon
    have : ((0, 0) : Nat × Nat) ∈ allPairs (s.length + 1) (s.length + 1) :=
      mem_allPairs.mpr ⟨Nat.succ_pos _, Nat.succ_pos _⟩
    rw [hcon] at this
    exact absurd this (List.not_mem_nil _)
  obtain ⟨x, T, hxT⟩ := List.exists_cons_of_ne_nil hne
  have htrans : ∀ a b c : Int, decide (b < a) = true → decide (c < b) = true →
      decide (c < a) = true := by
    intro a b c h1 h2
    simp only [decide_eq_true_iff] at h1 h2 ⊢
    omega
  have hneg : ∀ a b c : Int, decide (b < a) = true → decide (b < c) = false →
      decide (c < a) = true := by
    intro a b c h1 h2
    simp only [decide_eq_true_iff] at h1 ⊢
    have := of_decide_eq_false h2
    omega
  unfold findMaxCell
  rw [hxT, scanBest_cons]
  simp only [Option.getD_some]
  obtain ⟨l1, l2, hdec, hP1, hP2⟩ :=
    bestOf_spec (fun a b => decide (b < a))
      (fun p => buildMatrix s s 1 (-1) (-1) p.1 p.2)
      (fun a b c => htrans a b c) (fun a b c => hneg a b c) T x
  have hrmem : bestOf (fun a b => decide (b < a))
      (fun p => buildMatrix s s 1 (-1) (-1) p.1 p.2) x T ∈
      allPairs (s.length + 1) (s.length + 1) := by
    rw [hxT]
    exact bestOf_mem _ _ T x
  have hrle := mem_allPairs.mp hrmem
  have hr1 := (buildMatrix_self_le s
    (bestOf (fun a b => decide (b < a))
      (fun p => buildMatrix s s 1 (-1) (-1) p.1 p.2) x T).1
    (bestOf (fun a b => decide (b < a))
      (fun p => buildMatrix s s 1 (-1) (-1) p.1 p.2) x T).2).1
  have hr2 := (buildMatrix_self_le s
    (bestOf (fun a b => decide (b < a))
      (fun p => buildMatrix s s 1 (-1) (-1) p.1 p.2) x T).1
    (bestOf (fun a b => decide (b < a))
      (fun p => buildMatrix s s 1 (-1) (-1) p.1 p.2) x T).2).2
  have hnn : ((s.length, s.length) : Nat × Nat) ∈ x :: T := by
    rw [← hxT]
    exact mem_allPairs.mpr ⟨Nat.lt_succ_self _, Nat.lt_succ_self _⟩
  rw [hdec] at hnn
  rcases List.mem_append.mp hnn with hmem | hmem
  · exfalso
    have hbeat := hP1 _ hmem
    have hlt := of_decide_eq_true hbeat
    simp only at hlt
    rw [buildMatrix_self_diag s s.length] at hlt
    omega
  · rcases List.mem_cons.mp hmem with hmem | hmem
    · exact hmem.symm
    · have hfail := hP2 _ hmem
      have hge := of_decide_eq_false hfail
      simp only at hge
      rw [buildMatrix_self_diag s s.length] at hge
      have : (bestOf (fun a b => decide (b < a))
          (fun p => buildMatrix s s 1 (-1) (-1) p.1 p.2) x T).1 = s.length ∧
          (bestOf (fun a b => decide (b < a))
            (fun p => buildMatrix s s 1 (-1) (-1) p.1 p.2) x T).2 =
            s.length := by
        omega
      exact Prod.ext this.1 this.2

theorem tbGo_self (s : List Char) (fuel : Nat) :
    ∀ k, k ≤ s.length → k ≤ fuel →
      tbGo s s 1 (-1) (-1) fuel k k =
        ⟨s.take k, s.take k, 0, 0⟩ := by
  induction fuel with
  | zero =>
      intro k _ hf
      have hk0 : k = 0 := by omega
      subst hk0
      rfl
  | succ f ih =>
      intro k hk hf
      cases k with
      | zero => simp [tbGo]
      | succ k =>
          have hdiag : diagCond s s 1 (-1) (-1) (k + 1) (k + 1) := by
            refine ⟨Nat.succ_pos k, Nat.succ_pos k, ?_⟩
            simp only [Nat.add_sub_cancel]
            have hsub : subScore 1 (-1) (s.getD k ' ') (s.getD k ' ') = 1 :=
              if_pos rfl
            rw [buildMatrix_self_diag s (k + 1), buildMatrix_self_diag s k,
              hsub]
            push_cast
            ring
          have hk2 : k < s.length := by omega
          have hlast : s.getD k ' ' = s[k] := List.getD_eq_getElem s ' ' hk2
          have htake : s.take k ++ [s.getD k ' '] = s.take (k + 1) := by
            rw [hlast, List.take_succ, List.getElem?_eq_getElem hk2]
            rfl
          simp only [tbGo]
          rw [if_neg (by omega : ¬(k + 1 = 0 ∧ k + 1 = 0)), if_pos hdiag]
          simp only [Nat.add_sub_cancel]
          rw [ih k (by omega) (by omega)]
          simp only []
          rw [htake]

/-- C6: aligning a non-empty sequence against itself with the default
scores returns the sequence unchanged on both sides, and (for sequences
over the gap-free input alphabet) the outputs contain no gap symbol. -/
theorem claim_C6 (s : String) (h : s ≠ "") :
    pairwiseAlign s s 1 (-1) (-1) = (s, s) ∧
      ('-' ∉ s.toList →
        '-' ∉ (pairwiseAlign s s 1 (-1) (-1)).1.toList ∧
          '-' ∉ (pairwiseAlign s s 1 (-1) (-1)).2.toList) := by
  have e : pairwiseAlign s s 1 (-1) (-1) =
      (String.mk (tbGo s.toList s.toList 1 (-1) (-1)
          ((findMaxCell s.toList s.toList 1 (-1) (-1)).1 +
            (findMaxCell s.toList s.toList 1 (-1) (-1)).2)
          (findMaxCell s.toList s.toList 1 (-1) (-1)).1
          (findMaxCell s.toList s.toList 1 (-1) (-1)).2).a1,
        String.mk (tbGo s.toList s.toList 1 (-1) (-1)
          ((findMaxCell s.toList s.toList 1 (-1) (-1)).1 +
            (findMaxCell s.toList s.toList 1 (-1) (-1)).2)
          (findMaxCell s.toList s.toList 1 (-1) (-1)).1
          (findMaxCell s.toList s.toList 1 (-1) (-1)).2).a2) := rfl
  have key : pairwiseAlign s s 1 (-1) (-1) = (s, s) := by
    rw [e, findMaxCell_self s.toList]
    simp only []
    rw [tbGo_self s.toList (s.toList.length + s.toList.length)
      s.toList.length le_rfl (by omega)]
    simp only [List.take_length]
    cases s
    rfl
  refine ⟨key, fun hg => ?_⟩
  rw [key]
  exact ⟨hg, hg⟩

theorem claim_C6_witness :
    ("ATG" : String) ≠ "" ∧
    (pairwiseAlign "ATG" "ATG" 1 (-1) (-1) = ("ATG", "ATG") ∧
      ('-' ∉ "ATG".toList →
        '-' ∉ (pairwiseAlign "ATG" "ATG" 1 (-1) (-1)).1.toList ∧
          '-' ∉ (pairwiseAlign "ATG" "ATG" 1 (-1) (-1)).2.toList)) :=
  ⟨by decide, claim_C6 "ATG" (by decide)⟩

/-! ### The guide-tree builder -/

theorem gtSelect_isSome {c : List (List Nat)} (dm : List (List Rat))
    (h : 2 ≤ c.length) : ∃ p, gtSelect c dm = some p := by
  have hne : pairList c.length ≠ [] := by
    intro hcon
    have hmem : ((0, 1) : Nat × Nat) ∈ pairList c.length :=
      mem_pairList.mpr ⟨Nat.zero_lt_one, by omega⟩
    rw [hcon] at hmem
    exact absurd hmem (List.not_mem_nil _)
  obtain ⟨x, T, hxT⟩ := List.exists_cons_of_ne_nil hne
  refine ⟨bestOf (fun a b => decide (a < b))
    (fun q => averageDistance (c.getD q.1 []) (c.getD q.2 []) dm) x T, ?_⟩
  unfold gtSelect
  rw [hxT, scanBest_cons]

theorem gtSelect_mem {c : List (List Nat)} {dm : List (List Rat)}
    {p : Nat × Nat} (hp : gtSelect c dm = some p) :
    p ∈ pairList c.length := by
  unfold gtSelect at hp
  exact scanBest_mem hp

theorem gtStep_length {c : List (List Nat)} (dm : List (List Rat))
    (h : 2 ≤ c.length) : (gtStep c dm).length + 1 = c.length := by
  obtain ⟨p, hp⟩ := gtSelect_isSome dm h
  have hm := mem_pairList.mp (gtSelect_mem hp)
  obtain ⟨i, j⟩ := p
  have hstep : gtStep c dm =
      (c.eraseIdx j).set i (c.getD i [] ++ c.getD j []) := by
    unfold gtStep
    rw [hp]
  rw [hstep, List.length_set, List.length_eraseIdx]
  simp only at hm
  rw [if_pos hm.2]
  omega

theorem gtGo_spec (dm : List (List Rat)) (fuel : Nat) :
    ∀ (c : List (List Nat)) (steps : Nat), 1 ≤ c.length →
      c.length ≤ fuel + 1 →
      (gtGo dm fuel c steps).1.length = 1 ∧
        (gtGo dm fuel c steps).2 = steps + (c.length - 1) := by
  induction fuel with
  | zero =>
      intro c steps h1 h2
      have hc : c.length = 1 := by omega
      simp [gtGo, hc]
  | succ f ih =>
      intro c steps h1 h2
      simp only [gtGo]
      split
      · next hle =>
          have hc : c.length = 1 := by omega
          simp [hc]
      · next hgt =>
          have h2c : 2 ≤ c.length := by omega
          have hstep := gtStep_length dm h2c
          have hrec := ih (gtStep c dm) (steps + 1) (by omega) (by omega)
          refine ⟨hrec.1, ?_⟩
          rw [hrec.2]
          omega

/-- C7: for every distance matrix with at least one row, the guide-tree
builder ends with exactly one cluster and performs exactly `N - 1` merge
steps; and every merge step on at least two clusters reduces the cluster
count by exactly one. -/
theorem claim_C7 (dm : List (List Rat)) (c : List (List Nat))
    (h1 : 1 ≤ dm.length) (h2 : 2 ≤ c.length) :
    (gtGo dm dm.length (initClusters dm.length) 0).1.length = 1 ∧
    (gtGo dm dm.length (initClusters dm.length) 0).2 = dm.length - 1 ∧
    (gtStep c dm).length + 1 = c.length := by
  have hlen : (initClusters dm.length).length = dm.length := by
    simp [initClusters]
  have hmain := gtGo_spec dm dm.length (initClusters dm.length) 0
    (by omega) (by omega)
  exact ⟨hmain.1, by rw [hmain.2, hlen]; omega, gtStep_length dm h2⟩

theorem claim_C7_witness :
    1 ≤ ([[0, 1], [1, 0]] : List (List Rat)).length ∧
    2 ≤ ([[0], [1]] : List (List Nat)).length ∧
    ((gtGo [[0, 1], [1, 0]] ([[0, 1], [1, 0]] : List (List Rat)).length
        (initClusters ([[0, 1], [1, 0]] : List (List Rat)).length) 0).1.length
        = 1 ∧
      (gtGo [[0, 1], [1, 0]] ([[0, 1], [1, 0]] : List (List Rat)).length
        (initClusters ([[0, 1], [1, 0]] : List (List Rat)).length) 0).2 =
        ([[0, 1], [1, 0]] : List (List Rat)).length - 1 ∧
      (gtStep [[0], [1]] [[0, 1], [1, 0]]).length + 1 =
        ([[0], [1]] : List (List Nat)).length) :=
  ⟨by decide, by decide,
    claim_C7 [[0, 1], [1, 0]] [[0], [1]] (by decide) (by decide)⟩

/-- C8: whenever the guide-tree builder's scan selects a pair of
clusters, that pair is the first, in full scan order, to attain the
minimum average distance — recomputed from the raw entries of the
original distance matrix — so a strictly smaller average beats it
nowhere, and every tie is resolved toward the earlier pair. -/
theorem claim_C8 (c : List (List Nat)) (dm : List (List Rat))
    (h2 : 2 ≤ c.length) (hne : ∀ cl ∈ c, cl ≠ [])
    (p : Nat × Nat) (hp : gtSelect c dm = some p) :
    FirstMinAt
      (fun q => averageDistance (c.getD q.1 []) (c.getD q.2 []) dm)
      (pairList c.length) p := by
  unfold gtSelect at hp
  cases hxT : pairList c.length with
  | nil =>
      rw [hxT] at hp
      exact absurd hp (by simp [scanBest])
  | cons x T =>
      rw [hxT, scanBest_cons] at hp
      have hp2 := Option.some_inj.mp hp
      have htrans : ∀ a b c : Rat, decide (a < b) = true →
          decide (b < c) = true → decide (a < c) = true := by
        intro a b c ha hb
        simp only [decide_eq_true_iff] at ha hb ⊢
        exact lt_trans ha hb
      have hneg : ∀ a b c : Rat, decide (a < b) = true →
          decide (c < b) = false → decide (a < c) = true := by
        intro a b c ha hb
        simp only [decide_eq_true_iff] at ha ⊢
        exact lt_of_lt_of_le ha (le_of_not_lt (of_decide_eq_false hb))
      obtain ⟨l1, l2, hdec, hP1, hP2⟩ :=
        bestOf_spec (fun a b => decide (a < b))
          (fun q => averageDistance (c.getD q.1 []) (c.getD q.2 []) dm)
          (fun a b c => htrans a b c) (fun a b c => hneg a b c) T x
      rw [hp2] at hdec hP1 hP2
      refine ⟨l1, l2, ?_, ?_, ?_⟩
      · exact hdec
      · intro q hq
        exact of_decide_eq_true (hP1 q hq)
      · intro q hq
        exact le_of_not_lt (of_decide_eq_false (hP2 q hq))

theorem claim_C8_witness :
    2 ≤ ([[0], [1]] : List (List Nat)).length ∧
    (∀ cl ∈ ([[0], [1]] : List (List Nat)), cl ≠ []) ∧
    gtSelect [[0], [1]] [[0, 1], [1, 0]] = some (0, 1) ∧
    FirstMinAt
      (fun q => averageDistance (([[0], [1]] : List (List Nat)).getD q.1 [])
        (([[0], [1]] : List (List Nat)).getD q.2 []) [[0, 1], [1, 0]])
      (pairList ([[0], [1]] : List (List Nat)).length) (0, 1) :=
  ⟨by decide, by decide, rfl,
    claim_C8 [[0], [1]] [[0, 1], [1, 0]] (by decide) (by decide) (0, 1) rfl⟩

/-! ### The pairwise formatter's symbol track -/

/-- C9 (counterexample): on the equal-length aligned pair
`("-", "-")` the symbol track holds `'|'` at position 0 (the equality
test comes first in the `if` chain), although both symbols — hence
"either symbol" — are the gap character, where the claim demands a
space. -/
theorem claim_C9_counterexample :
    mkSymbols ['-'] ['-'] = ['|'] ∧ ('|' : Char) ≠ ' ' := by
  decide

/-- C9 (amended): on equal-length aligned strings, position `k` of the
symbol track is `'|'` exactly when the two symbols are equal, `' '`
exactly when they differ and at least one of them is the gap `'-'`, and
`'x'` exactly when they differ and neither is the gap.  (A column with
the gap on both sides counts as equal and is reported `'|'`, not
`' '`.) -/
theorem claim_C9_amended (s1 s2 : List Char) (h : s1.length = s2.length)
    (k : Nat) (hk1 : k < s1.length) (hk2 : k < s2.length) :
    ((mkSymbols s1 s2).getD k 'Z' = '|' ↔
      s1.get ⟨k, hk1⟩ = s2.get ⟨k, hk2⟩) ∧
    ((mkSymbols s1 s2).getD k 'Z' = ' ' ↔
      (s1.get ⟨k, hk1⟩ ≠ s2.get ⟨k, hk2⟩ ∧
        (s1.get ⟨k, hk1⟩ = '-' ∨ s2.get ⟨k, hk2⟩ = '-'))) ∧
    ((mkSymbols s1 s2).getD k 'Z' = 'x' ↔
      (s1.get ⟨k, hk1⟩ ≠ s2.get ⟨k, hk2⟩ ∧ s1.get ⟨k, hk1⟩ ≠ '-' ∧
        s2.get ⟨k, hk2⟩ ≠ '-')) := by
  have hlen : k < (mkSymbols s1 s2).length := by
    unfold mkSymbols
    rw [List.length_map, List.length_range]
    exact hk1
  have hval : (mkSymbols s1 s2).getD k 'Z' =
      symAt (s1.get ⟨k, hk1⟩) (s2.get ⟨k, hk2⟩) := by
    rw [List.getD_eq_getElem _ 'Z' hlen]
    unfold mkSymbols
    rw [List.getElem_map, List.getElem_range,
      List.getD_eq_getElem s1 ' ' hk1, List.getD_eq_getElem s2 ' ' hk2]
    rfl
  rw [hval]
  unfold symAt
  split_ifs with heq hgap
  · refine ⟨⟨fun _ => heq, fun _ => rfl⟩, ?_, ?_⟩
    · constructor
      · intro hcon; exact absurd hcon (by decide)
      · intro hcon; exact absurd heq hcon.1
    · constructor
      · intro hcon; exact absurd hcon (by decide)
      · intro hcon; exact absurd heq hcon.1
  · refine ⟨?_, ⟨fun _ => ⟨heq, hgap⟩, fun _ => rfl⟩, ?_⟩
    · constructor
      · intro hcon; exact absurd hcon (by decide)
      · intro hcon; exact absurd hcon heq
    · constructor
      · intro hcon; exact absurd hcon (by decide)
      · intro hcon
        rcases hgap with hg | hg
        · exact absurd hg hcon.2.1
        · exact absurd hg hcon.2.2
  · refine ⟨?_, ?_, ⟨fun _ => ?_, fun _ => rfl⟩⟩
    · constructor
      · intro hcon; exact absurd hcon (by decide)
      · intro hcon; exact absurd hcon heq
    · constructor
      · intro hcon; exact absurd hcon (by decide)
      · intro hcon; exact absurd hcon.2 hgap
    · refine ⟨heq, ?_, ?_⟩
      · intro hcon; exact hgap (Or.inl hcon)
      · intro hcon; exact hgap (Or.inr hcon)

theorem claim_C9_witness :
    (['A', 'C'] : List Char).length = (['G', 'C'] : List Char).length ∧
    ((((mkSymbols ['A', 'C'] ['G', 'C']).getD 0 'Z' = '|' ↔
      (['A', 'C'] : List Char).get ⟨0, by decide⟩ =
        (['G', 'C'] : List Char).get ⟨0, by decide⟩) ∧
    ((mkSymbols ['A', 'C'] ['G', 'C']).getD 0 'Z' = ' ' ↔
      ((['A', 'C'] : List Char).get ⟨0, by decide⟩ ≠
          (['G', 'C'] : List Char).get ⟨0, by decide⟩ ∧
        ((['A', 'C'] : List Char).get ⟨0, by decide⟩ = '-' ∨
          (['G', 'C'] : List Char).get ⟨0, by decide⟩ = '-'))) ∧
    ((mkSymbols ['A', 'C'] ['G', 'C']).getD 0 'Z' = 'x' ↔
      ((['A', 'C'] : List Char).get ⟨0, by decide⟩ ≠
          (['G', 'C'] : List Char).get ⟨0, by decide⟩ ∧
        (['A', 'C'] : List Char).get ⟨0, by decide⟩ ≠ '-' ∧
        (['G', 'C'] : List Char).get ⟨0, by decide⟩ ≠ '-')))) :=
  ⟨by decide, claim_C9_amended ['A', 'C'] ['G', 'C'] (by decide) 0
    (by decide) (by decide)⟩

/-! ### Runtime failure of the multiple-sequence-alignment path -/

/-- C4: evaluation of the multiple-sequence-alignment entry point.  An
empty sequence in the batch is rejected with `InvalidInput` during
cleanup, before any matrix is built — but on a perfectly valid batch of
two non-empty sequences the run fails with a `TypeError`, because
`calculateDistanceFromAlignment` array-destructures the non-iterable
object returned by `_traceback` (`playground.gs` line 42).  The claim
that no runtime failure occurs for non-empty inputs is false. -/
theorem claim_C4_eval :
    multipleSequenceAlignment ["", "AAAA"] 10 5 1 (-1) (-1) =
      .error .invalidInput ∧
    multipleSequenceAlignment ["AC", "GT"] 10 5 1 (-1) (-1) =
      .error .typeError :=
  ⟨rfl, rfl⟩

/-- C5: the concrete scenario
`multipleSequenceAlign(["AAAA","AAAA","AAAA"], 10, 5, 1, -1, -1)` does
not succeed: it throws a `TypeError` at the first distance computation
(`playground.gs` line 42, array-destructuring the `_traceback` object),
instead of returning three aligned rows. -/
theorem claim_C5_eval :
    multipleSequenceAlignment ["AAAA", "AAAA", "AAAA"] 10 5 1 (-1) (-1) =
      .error .typeError :=
  rfl

end C6
